import Mathlib

/-!
Verification of the deterministic-replay controller (`src/logger.py`).

The development shallowly embeds the replay player (`RepGame`), the session
manager (`RepManager`) and the replay loader (`_load_queue`) as pure Lean
functions over explicit state.  Side effects on the external logic engine
(`ts17core.interface.Interface`) are recorded as an event trace: one event
per `logic.nextTick()` call and one per action application
(`act.run(self._logic)`).  Wall-clock time is modelled with exact rationals;
reads of the real-time clock in the main loop are drawn from an explicit
oracle so that every real-time schedule is covered.
-/

namespace Logger

/-- An action record, as produced by `action.Action(line, name, None)`.
`action.py` is not part of this snapshot; per the spec the interface exposes
a kind/name (`instruction` vs `game_end`) and an opaque payload. -/
structure Action where
  action_name : String
  action_json : String
deriving Repr, DecidableEq

/-- One observable effect on the logic engine: a `nextTick()` call, or the
application of an action (`run`) recorded together with the queue timestamp
of the applied record. -/
inductive Ev where
  | tick : Ev
  | apply : Nat → Action → Ev
deriving Repr, DecidableEq

def Ev.isTick : Ev → Bool
  | .tick => true
  | .apply _ _ => false

/-- Number of `nextTick()` calls recorded in a trace. -/
def tickCount (tr : List Ev) : Nat := (tr.filter Ev.isTick).length

def Ev.isGameEndApply : Ev → Bool
  | .apply _ a => a.action_name == "game_end"
  | .tick => false

/-- Number of applications of a terminal `game_end` action in a trace. -/
def gameEndApplies (tr : List Ev) : Nat := (tr.filter Ev.isGameEndApply).length

def appliedOf : Ev → Option (Nat × Action)
  | .apply t a => some (t, a)
  | .tick => none

/-- The (timestamp, action) pairs applied to the logic engine, in order. -/
def appliedList (tr : List Ev) : List (Nat × Action) := tr.filterMap appliedOf

/-- Modelled from the spec: `main.Timer` is not part of this snapshot.  Per
the spec, the clock tracks elapsed real time, can be started/stopped, and can
have its elapsed value forced; `current_time = elapsed + (now - start_instant)`
while running, else `elapsed`.  `stop` merely halts the clock here: everywhere
a claim observes `elapsed` after a `stop()`, the code overwrites it first. -/
structure Timer where
  running : Bool
  elapsed : ℚ
  startInstant : ℚ
deriving Repr, DecidableEq

def Timer.currentTime (t : Timer) (now : ℚ) : ℚ :=
  if t.running then t.elapsed + (now - t.startInstant) else t.elapsed

/-- Modelled from the spec: forcing the clock's elapsed value
(`self._timer.current_time = v`), used when jumping to a tick. -/
def Timer.setCurrent (t : Timer) (v now : ℚ) : Timer :=
  if t.running then { running := true, elapsed := v, startInstant := now }
  else { t with elapsed := v }

/-- `RepGame.ROUNDS_PER_SEC`. -/
def ROUNDS_PER_SEC : Nat := 20

/-- Python `int(x)` truncation toward zero. -/
def pyInt (x : ℚ) : Int := if 0 ≤ x then ⌊x⌋ else -⌊-x⌋

/-- `RepGame.__logic_time`: `int(timestamp * ROUNDS_PER_SEC)`. -/
def logicTime (t : ℚ) : Int := pyInt (t * (ROUNDS_PER_SEC : ℚ))

/-- `RepGame.__real_time`: `timestamp / ROUNDS_PER_SEC`. -/
def realTime (n : Nat) : ℚ := (n : ℚ) / (ROUNDS_PER_SEC : ℚ)

/-- The state of one `RepGame` (a per-session player):
`_last_action_timestamp`, `_timer`, `_action_buffer`, `queue`, plus the
trace of effects applied so far to its private logic engine and an identity
tag distinguishing player instances (Python object identity). -/
structure RepGameState where
  lastTick : Nat
  timer : Timer
  buffer : Option (Nat × Action)
  queue : List (Nat × Action)
  trace : List Ev
  pid : Nat
deriving Repr, DecidableEq

/-- The body of the tick-advance loop, counted down by the remaining gap:
each step is one `self._logic.nextTick()` call followed by
`self._last_action_timestamp += 1`. -/
def advanceAux : Nat → Nat → List Ev → Nat × List Ev
  | 0, lt, tr => (lt, tr)
  | k + 1, lt, tr => advanceAux k (lt + 1) (tr ++ [Ev.tick])

/-- `while target > lastTick: self._logic.nextTick(); lastTick += 1` —
the tick-advance loop shared by `mainloop` and `set_round`
(src/logger.py lines 95-102, 113-119, 152-158, 168-174); the loop runs
exactly `target - lastTick` times. -/
def advanceTicks (target lt : Nat) (tr : List Ev) : Nat × List Ev :=
  advanceAux (target - lt) lt tr

/-- The `while self._action_buffer and self._action_buffer[0] < timestamp`
loop of `RepGame.set_round` (src/logger.py lines 151-167), recursing on the
remaining queue; `buf` and `q` mirror `s.buffer` and `s.queue`.  The returned
Bool records whether `Unexpected ending of replay file.` was logged at error
level (line 166). -/
def setRoundGo (timestamp : Nat) (buf : Option (Nat × Action)) (q : List (Nat × Action))
    (s : RepGameState) : RepGameState × Bool :=
  match buf with
  | none => ({ s with buffer := none, queue := q }, false)
  | some (t, a) =>
    if t < timestamp then
      if a.action_name = "game_end" then
        ({ s with buffer := some (t, a), queue := q,
                  lastTick := (advanceTicks t s.lastTick s.trace).1,
                  trace := (advanceTicks t s.lastTick s.trace).2,
                  timer := { s.timer with elapsed := realTime t } }, false)
      else
        match q with
        | [] =>
            ({ s with buffer := some (t, a), queue := [],
                      lastTick := (advanceTicks t s.lastTick s.trace).1,
                      trace := (advanceTicks t s.lastTick s.trace).2 ++ [Ev.apply t a] },
             true)
        | b :: rest =>
            setRoundGo timestamp (some b) rest
              { s with buffer := some b, queue := rest,
                       lastTick := (advanceTicks t s.lastTick s.trace).1,
                       trace := (advanceTicks t s.lastTick s.trace).2 ++ [Ev.apply t a] }
    else ({ s with buffer := some (t, a), queue := q }, false)

/-- The replay loop of `RepGame.set_round`, started on the current buffer
and queue. -/
def setRoundLoop (timestamp : Nat) (s : RepGameState) : RepGameState × Bool :=
  setRoundGo timestamp s.buffer s.queue s

/-- Entry of `RepGame.set_round` once `timestamp > lastTick` holds:
stop the timer, force elapsed to `real_time(timestamp)` (lines 147-148) and
refill the lookahead buffer from the queue if it is empty (lines 149-150). -/
def srEnter (s : RepGameState) (timestamp : Nat) : RepGameState :=
  let s₀ : RepGameState :=
    { s with timer := { s.timer with running := false, elapsed := realTime timestamp } }
  match s₀.buffer, s₀.queue with
  | none, b :: rest => { s₀ with buffer := some b, queue := rest }
  | _, _ => s₀

/-- `RepGame.set_round` (src/logger.py lines 145-174).  Returns the new
player state and whether the premature-end error was logged. -/
def RepGame.set_round (s : RepGameState) (timestamp : Nat) : RepGameState × Bool :=
  if s.lastTick < timestamp then
    let s₂ := (setRoundLoop timestamp (srEnter s timestamp)).1
    ({ s₂ with lastTick := (advanceTicks timestamp s₂.lastTick s₂.trace).1,
               trace := (advanceTicks timestamp s₂.lastTick s₂.trace).2 },
     (setRoundLoop timestamp (srEnter s timestamp)).2)
  else (s, false)

def initAct : Action := ⟨"instruction", "init"⟩

def instrA : Action := ⟨"instruction", "instrA"⟩

def instrB : Action := ⟨"instruction", "instrB"⟩

def gameEndAct : Action := ⟨"game_end", "gameEnd"⟩

def freshTimer : Timer := ⟨false, 0, 0⟩

/-- The scenario queue [(0, init), (5, instrA), (12, instrB), (20, gameEnd)]
on a freshly started player. -/
def c3start : RepGameState :=
  { lastTick := 0, timer := freshTimer, buffer := none,
    queue := [(0, initAct), (5, instrA), (12, instrB), (20, gameEndAct)],
    trace := [], pid := 0 }

/-- Control-channel messages a running `RepGame.mainloop` can receive
(lines 70-89): `0` (deactivate), `1` (pause toggle), an injected platform
`Action`, or a rendezvous `queue.Queue` the manager uses to drain the loop. -/
inductive Sig where
  | stop : Sig
  | togglePause : Sig
  | inject : Action → Sig
  | rendezvous : Sig
deriving Repr, DecidableEq

/-- Oracle inputs for one `mainloop` iteration: whether a signal is already
pending when line 70 tests `not self.sig.empty()`, what `sig.get` returns
(`none` models a timeout), and the wall-clock instants observed by the
successive reads of `timer.current_time` during the iteration. -/
structure MainEnv where
  sigPending : Bool
  received : Option Sig
  nows : List ℚ
deriving Repr, DecidableEq

/-- Outcome of one `while 1` iteration of `RepGame.mainloop`: the loop
returned because the session finished (line 64), returned after a stop or
rendezvous signal (lines 77, 89), or continues looping. -/
inductive StepRes where
  | finished : RepGameState → StepRes
  | stopped : RepGameState → StepRes
  | looping : RepGameState → StepRes
deriving Repr, DecidableEq

def StepRes.state : StepRes → RepGameState
  | .finished s => s
  | .stopped s => s
  | .looping s => s

/-- The catch-up loop of `mainloop` (lines 95-103):
`while buffer_ts > lastTick and logic_time(current_time) > lastTick`,
one `nextTick()` plus one increment per pass; the second conjunct reads the
clock only when the first holds (Python short-circuit), each read consuming
one oracle instant.  Counted down by the remaining gap `bufTs - lastTick`. -/
def catchUpAux (timer : Timer) : Nat → Nat → List ℚ → List Ev → Nat × List ℚ × List Ev
  | 0, lt, nows, tr => (lt, nows, tr)
  | k + 1, lt, nows, tr =>
      if (lt : Int) < logicTime (timer.currentTime (nows.headD 0)) then
        catchUpAux timer k (lt + 1) nows.tail (tr ++ [Ev.tick])
      else (lt, nows.tail, tr)

def catchUp (timer : Timer) (bt lt : Nat) (nows : List ℚ) (tr : List Ev) :
    Nat × List ℚ × List Ev :=
  catchUpAux timer (bt - lt) lt nows tr

/-- Lines 109-121 of `mainloop`: advance the logic engine until `lastTick`
reaches the due action's timestamp, then apply the action. -/
def applyPhase (s : RepGameState) (nts : Nat) (nact : Action) : RepGameState :=
  { s with lastTick := (advanceTicks nts s.lastTick s.trace).1,
           trace := (advanceTicks nts s.lastTick s.trace).2 ++ [Ev.apply nts nact] }

/-- Lines 104-108 of `mainloop`: compare the pending action's tick with the
logic time derived from the clock (each comparison performs its own clock
read), snapping the clock forward when the action is overdue, or re-buffering
it when it is not yet due. -/
def dispatchPhase (s : RepGameState) (nows : List ℚ) (nts : Nat) (nact : Action) : StepRes :=
  if (nts : Int) < logicTime (s.timer.currentTime (nows.headD 0)) then
    .looping (applyPhase
      { s with timer := s.timer.setCurrent (realTime (nts + 1)) (nows.tail.headD 0) } nts nact)
  else if (nts : Int) > logicTime (s.timer.currentTime (nows.tail.headD 0)) then
    .looping { s with buffer := some (nts, nact) }
  else
    .looping (applyPhase s nts nact)

/-- Lines 75-108 of `mainloop`: react to the received control signal `q`
(`0` → drain and return, `1` → flip the pause flag, an injected action →
dispatch it at the current tick, a rendezvous queue → drain, acknowledge and
return), and when no signal arrived either dispatch the due buffered action
or catch logic time up to the clock. -/
def mainloopDispatch (s : RepGameState) (bt : Nat) (ba : Action) (env : MainEnv) :
    Option Sig → StepRes
  | some .stop => .stopped (RepGame.set_round s (s.lastTick + 1)).1
  | some .togglePause =>
      .looping { s with timer := { s.timer with running := ¬ s.timer.running } }
  | some .rendezvous => .stopped (RepGame.set_round s (s.lastTick + 1)).1
  | some (.inject act) => dispatchPhase s env.nows.tail s.lastTick act
  | none =>
      if (bt : Int) ≤ logicTime (s.timer.currentTime (env.nows.tail.headD 0)) then
        dispatchPhase { s with buffer := none } env.nows.tail.tail bt ba
      else
        .looping { s with
          lastTick := (catchUp s.timer bt s.lastTick env.nows.tail.tail s.trace).1,
          trace := (catchUp s.timer bt s.lastTick env.nows.tail.tail s.trace).2.2 }

/-- The body of one `mainloop` iteration (lines 67-122) once the lookahead
buffer holds `(bt, ba)` (and `s.buffer = some (bt, ba)`): compute the wait
deadline (line 67, clamped at 0 by lines 68-69), poll the control channel
when the clock is stopped, a signal is already pending, or the deadline is
positive (lines 70-74), then dispatch. -/
def mainloopCore (s : RepGameState) (bt : Nat) (ba : Action) (env : MainEnv) : StepRes :=
  mainloopDispatch s bt ba env
    (if ¬ s.timer.running ∨ env.sigPending ∨
        0 < realTime (min bt (s.lastTick + 1)) - s.timer.currentTime (env.nows.headD 0)
     then env.received else none)

/-- One full `while 1` iteration of `RepGame.mainloop` (lines 58-122):
finish when both the buffer and the queue are exhausted (lines 61-64),
otherwise refill the buffer if needed (lines 65-66) and run the body. -/
def mainloopStep (s : RepGameState) (env : MainEnv) : StepRes :=
  match s.buffer, s.queue with
  | none, [] =>
      .finished { s with timer := { s.timer with running := false,
                                                 elapsed := realTime s.lastTick } }
  | none, b :: rest => mainloopCore { s with buffer := some b, queue := rest } b.1 b.2 env
  | some bv, _ => mainloopCore s bv.1 bv.2 env

/-- `RepGame.mainloop` run under a finite schedule of per-iteration oracle
environments; the loop also stops when it returns. -/
def mainloopRun : RepGameState → List MainEnv → RepGameState
  | s, [] => s
  | s, e :: es =>
      match mainloopStep s e with
      | .finished s' => s'
      | .stopped s' => s'
      | .looping s' => mainloopRun s' es

/-- One line of a replay source: a parsed JSON record carrying the optional
`time` and `action` fields plus its raw text, or a line on which
`json.loads` raises. -/
inductive SrcLine where
  | record : Option Nat → Option String → String → SrcLine
  | bad : SrcLine
deriving Repr, DecidableEq

/-- A replay source: opening/reading raises OSError, or yields lines. -/
inductive Source where
  | unreadable : Source
  | content : List SrcLine → Source
deriving Repr, DecidableEq

/-- The iteration of `_load_queue` (lines 278-288), threading `r` (the time
of the most recent `game_end` record).  Returns the final `r`, the records
appended, and whether a malformed line aborted the iteration — the
ValueError it raises is discarded by the `return r` inside `finally`
(line 293), so the caller sees a normal return of the partial data. -/
def loadLines : List SrcLine → Nat → Nat × List (Nat × Action) × Bool
  | [], r => (r, [], false)
  | SrcLine.record t? a? raw :: rest, r =>
      if a? = some "game_end" then
        ((loadLines rest (t?.getD 0)).1,
         (t?.getD 0, ⟨"game_end", raw⟩) :: (loadLines rest (t?.getD 0)).2.1,
         (loadLines rest (t?.getD 0)).2.2)
      else
        ((loadLines rest r).1,
         (t?.getD 0, ⟨"instruction", raw⟩) :: (loadLines rest r).2.1,
         (loadLines rest r).2.2)
  | SrcLine.bad :: _, r => (r, [], true)

/-- The synthetic terminal record appended by the OSError handler
(line 291). -/
def syntheticEnd : Action :=
  ⟨"game_end", "\x7b\"action\":\"game_end\",\"ai_id\":-2,\"time\":0\x7d"⟩

/-- Result of `_load_queue`: the returned `r`, the target deque after the
call, whether `Corrupted replay file` was logged at error level (line 290),
and whether a parse error cut the iteration short. -/
structure LoadResult where
  rounds : Nat
  queue : List (Nat × Action)
  errorLogged : Bool
  aborted : Bool
deriving Repr, DecidableEq

/-- `_load_queue` (src/logger.py lines 274-293). -/
def _load_queue (src : Source) (target : List (Nat × Action)) : LoadResult :=
  match src with
  | .unreadable =>
      { rounds := 0, queue := target ++ [(0, syntheticEnd)],
        errorLogged := true, aborted := false }
  | .content ls =>
      { rounds := (loadLines ls 0).1, queue := target ++ (loadLines ls 0).2.1,
        errorLogged := false, aborted := (loadLines ls 0).2.2 }

/-- Specification-side reading of one well-formed line. -/
def lineRecord : SrcLine → Nat × Action
  | .record t? a? raw =>
      (t?.getD 0, ⟨if a? = some "game_end" then "game_end" else "instruction", raw⟩)
  | .bad => (0, ⟨"instruction", ""⟩)

/-- Specification-side list of the `time` fields of the `game_end` records
of a source, in order. -/
def gameEndTimes (ls : List SrcLine) : List Nat :=
  ls.filterMap fun l => match l with
    | .record t? a? _ => if a? = some "game_end" then some (t?.getD 0) else none
    | .bad => none

/-- Specification-side: time of the last `game_end` record, `0` if none. -/
def lastGameEndTime (ls : List SrcLine) : Nat := (gameEndTimes ls).getLast?.getD 0

/-- `self._active_game._timer.stop()` (line 242). -/
def stopTimer (g : RepGameState) : RepGameState :=
  { g with timer := { g.timer with running := false } }

/-- Insertion into the SortedDict `self._games` keyed by `lastTick`; keeps
the association list sorted by key. -/
def storeInsert (k : Nat) (p : RepGameState) :
    List (Nat × RepGameState) → List (Nat × RepGameState)
  | [] => [(k, p)]
  | (k', p') :: rest =>
      if k < k' then (k, p) :: (k', p') :: rest else (k', p') :: storeInsert k p rest

/-- `ts in self._games` (line 250). -/
def hasKey (k : Nat) (l : List (Nat × RepGameState)) : Bool := l.any fun kp => kp.1 == k

/-- `pos = self._games.bisect(timestamp)` followed by
`self._games.iloc[pos - 1]` (lines 252, 261): on the sorted store this is
the last entry whose key is at most `timestamp` (`none` when `pos == 0`). -/
def storeFindLE (timestamp : Nat) (l : List (Nat × RepGameState)) :
    Option (Nat × RepGameState) :=
  (l.filter fun kp => decide (kp.1 ≤ timestamp)).getLast?

/-- `del self._games.iloc[pos - 1]` (line 262): with sorted distinct keys,
removing index `pos - 1` removes exactly the (first) entry with the found
key. -/
def storeErase (k : Nat) : List (Nat × RepGameState) → List (Nat × RepGameState)
  | [] => []
  | kp :: rest => if kp.1 = k then rest else kp :: storeErase k rest

def storeKeys (l : List (Nat × RepGameState)) : List Nat := l.map Prod.fst

def storePids (l : List (Nat × RepGameState)) : List Nat := l.map fun kp => kp.2.pid

/-- The state of a `RepManager`: the active player, the checkpoint store
`self._games`, `self._rounds`, the replay source kept in `self._rep_file`,
and a counter supplying fresh player identities. -/
structure RepManagerState where
  active : RepGameState
  games : List (Nat × RepGameState)
  rounds : Nat
  src : Source
  nextId : Nat
deriving Repr, DecidableEq

/-- A newly constructed `RepGame(verbose, info_callback)`: `lastTick = 0`,
fresh timer, empty buffer, queue and logic-engine history. -/
def freshRepGame (pid : Nat) : RepGameState :=
  { lastTick := 0, timer := freshTimer, buffer := none, queue := [],
    trace := [], pid := pid }

/-- A fresh player whose queue was filled by `_load_queue` from the replay
source (lines 183-184 and 254-255). -/
def freshLoaded (src : Source) (pid : Nat) : RepGameState :=
  { (freshRepGame pid) with queue := (_load_queue src (freshRepGame pid).queue).queue }

/-- `RepManager.__init__` (lines 178-203): load the queue, then pop the very
first record and run it against the logic engine (line 199).  Returns `none`
when the loaded queue is empty, in which case `popleft()` raises IndexError. -/
def RepManager.init (src : Source) : Option RepManagerState :=
  match (freshLoaded src 0).queue with
  | [] => none
  | (t, a) :: rest =>
      some { active := { (freshLoaded src 0) with
                           queue := rest,
                           trace := (freshLoaded src 0).trace ++ [Ev.apply t a] },
             games := [], rounds := (_load_queue src []).rounds, src := src, nextId := 1 }

/-- The synchronous rendezvous of a backward `RepManager.set_round`
(lines 246-248): after the manager stops the timer and posts an
acknowledgement queue, the player's `mainloop` answers by running
`set_round(lastTick + 1)` and returning (lines 86-89); the retired player is
the active player after that drain. -/
def retireActive (m : RepManagerState) : RepGameState :=
  (RepGame.set_round (stopTimer m.active) ((stopTimer m.active).lastTick + 1)).1

/-- Lines 249-251: store the retired player under its `lastTick` unless the
key is already taken. -/
def retiredStore (m : RepManagerState) : List (Nat × RepGameState) :=
  if hasKey (retireActive m).lastTick m.games then m.games
  else storeInsert (retireActive m).lastTick (retireActive m) m.games

/-- `RepManager.set_round` (src/logger.py lines 238-267).  `none` models the
IndexError of `popleft()` on an empty freshly loaded queue (line 259); the
notification-callback suppression and the final info log are not observable
in this model. -/
def RepManager.set_round (m : RepManagerState) (timestamp : Nat) :
    Option RepManagerState :=
  if m.active.lastTick < timestamp then
    some { m with active := (RepGame.set_round (stopTimer m.active) timestamp).1 }
  else
    match storeFindLE timestamp (retiredStore m) with
    | none =>
        if 0 < timestamp then
          some { m with active := (RepGame.set_round (freshLoaded m.src m.nextId) timestamp).1,
                        games := retiredStore m, nextId := m.nextId + 1 }
        else
          match (freshLoaded m.src m.nextId).queue with
          | [] => none
          | (t, a) :: rest =>
              some { m with
                active := { (freshLoaded m.src m.nextId) with
                              queue := rest,
                              trace := (freshLoaded m.src m.nextId).trace ++ [Ev.apply t a] },
                games := retiredStore m, nextId := m.nextId + 1 }
    | some (k, p) =>
        some { m with
          active := if p.lastTick < timestamp then (RepGame.set_round p timestamp).1 else p,
          games := storeErase k (retiredStore m) }

/-- `m.bind (set_round · timestamp)`: one manager seek on an optional state. -/
def mgrSeek (m? : Option RepManagerState) (timestamp : Nat) : Option RepManagerState :=
  m?.bind fun m => RepManager.set_round m timestamp

/-- A session: construct the manager from a source, then perform the given
sequence of manager-level seeks. -/
def mgrRun (src : Source) (seeks : List Nat) : Option RepManagerState :=
  seeks.foldl mgrSeek (RepManager.init src)

/-- Timestamp of the first record the loader produces from the source. -/
def firstTs (src : Source) : Option Nat := ((_load_queue src []).queue.head?).map Prod.fst

/-- `totalTicks`: the value `_load_queue` returns at construction time. -/
def totalTicksOf (src : Source) : Nat := (_load_queue src []).rounds

/-- Internal invariant of the session manager, preserved by every manager
seek: store keys are the stored players' `lastTick`s and are strictly
sorted; player identities are pairwise distinct and distinct from the active
player and bounded by the fresh-id counter; and every player ever produced
has only applied actions whose timestamp is at most its `lastTick`. -/
structure MgrInv (m : RepManagerState) : Prop where
  keys_eq : ∀ kp ∈ m.games, (kp : Nat × RepGameState).2.lastTick = kp.1
  keys_sorted : m.games.Pairwise fun x y => x.1 < y.1
  pids_nodup : (storePids m.games).Nodup
  active_notin : m.active.pid ∉ storePids m.games
  pids_lt : ∀ kp ∈ m.games, (kp : Nat × RepGameState).2.pid < m.nextId
  active_lt : m.active.pid < m.nextId
  traces : ∀ kp ∈ m.games, ∀ p ∈ appliedList (kp : Nat × RepGameState).2.trace,
    p.1 ≤ kp.2.lastTick
  active_trace : ∀ p ∈ appliedList m.active.trace, p.1 ≤ m.active.lastTick

/-- A four-record well-formed replay source matching the spec scenario. -/
def sampleSrc : Source :=
  .content [.record (some 0) (some "init") "l0",
            .record (some 5) (some "move") "l1",
            .record (some 12) (some "move") "l2",
            .record (some 20) (some "game_end") "l3"]

/-- A source whose second line is malformed JSON. -/
def badJsonSrc : Source :=
  .content [.record (some 3) (some "foo") "good", .bad]

/-- A player whose buffer holds one pending instruction and whose queue is
exhausted. -/
def c4start : RepGameState :=
  { lastTick := 0, timer := freshTimer, buffer := some (2, ⟨"instruction", "x"⟩),
    queue := [], trace := [], pid := 0 }

/-- A throwaway manager state used as the default of `Option.getD`. -/
def mgrDefault : RepManagerState :=
  { active := freshRepGame 0, games := [], rounds := 0, src := Source.unreadable, nextId := 1 }

/-- The manager freshly constructed from the sample source. -/
def sampleInitMgr : RepManagerState := (RepManager.init sampleSrc).getD mgrDefault

/-- The sample session after seeks 8, 3 and then 5. -/
def c1m : RepManagerState := (mgrRun sampleSrc [8, 3, 5]).getD mgrDefault

/-- The sample session after seeks 8, 3 and 15. -/
def c2m : RepManagerState := (mgrRun sampleSrc [8, 3, 15]).getD mgrDefault

/-- `c2m` after a further backward seek to 10 (which adopts the checkpoint
stored at tick 9). -/
def c2m' : RepManagerState := (RepManager.set_round c2m 10).getD mgrDefault

/-- The checkpoint player stored at key 9 in `c2m`'s retired store. -/
def c2p : RepGameState := ((retiredStore c2m).headD (0, freshRepGame 0)).2

/-- The sample session after seeks 8 and 3. -/
def c6m : RepManagerState := (mgrRun sampleSrc [8, 3]).getD mgrDefault

/-- `c6m` after a further backward seek to 2. -/
def c6m' : RepManagerState := (RepManager.set_round c6m 2).getD mgrDefault

theorem advanceAux_eq : ∀ (k lt : Nat) (tr : List Ev),
    advanceAux k lt tr = (lt + k, tr ++ List.replicate k Ev.tick)
  | 0, lt, tr => by simp [advanceAux]
  | k + 1, lt, tr => by
      rw [advanceAux, advanceAux_eq k]
      refine Prod.ext ?_ ?_
      · show lt + 1 + k = lt + (k + 1)
        omega
      · show tr ++ [Ev.tick] ++ List.replicate k Ev.tick = tr ++ List.replicate (k + 1) Ev.tick
        simp [List.replicate_succ]

theorem advanceTicks_eq (target lt : Nat) (tr : List Ev) :
    advanceTicks target lt tr = (lt + (target - lt), tr ++ List.replicate (target - lt) Ev.tick) :=
  advanceAux_eq _ _ _

theorem tickCount_append (l₁ l₂ : List Ev) :
    tickCount (l₁ ++ l₂) = tickCount l₁ + tickCount l₂ := by
  simp [tickCount, List.filter_append]

theorem tickCount_replicate_tick (n : Nat) :
    tickCount (List.replicate n Ev.tick) = n := by
  induction n with
  | zero => rfl
  | succ k ih =>
      rw [List.replicate_succ]
      simp only [tickCount, List.filter_cons] at ih ⊢
      simp [Ev.isTick, ih]

theorem appliedList_append (l₁ l₂ : List Ev) :
    appliedList (l₁ ++ l₂) = appliedList l₁ ++ appliedList l₂ := by
  simp [appliedList]

theorem appliedList_replicate_tick (n : Nat) :
    appliedList (List.replicate n Ev.tick) = [] := by
  induction n with
  | zero => rfl
  | succ k ih =>
      rw [List.replicate_succ]
      simp only [appliedList, List.filterMap_cons, appliedOf] at ih ⊢
      exact ih

theorem gameEndApplies_append (l₁ l₂ : List Ev) :
    gameEndApplies (l₁ ++ l₂) = gameEndApplies l₁ + gameEndApplies l₂ := by
  simp [gameEndApplies, List.filter_append]

theorem gameEndApplies_eq_zero (d : List Ev)
    (h : ∀ p ∈ appliedList d, p.2.action_name ≠ "game_end") :
    gameEndApplies d = 0 := by
  induction d with
  | nil => rfl
  | cons ev rest ih =>
      cases ev with
      | tick =>
          simp only [appliedList, List.filterMap_cons, appliedOf] at h
          simpa [gameEndApplies, List.filter_cons, Ev.isGameEndApply] using
            ih (by simpa [appliedList] using h)
      | apply t a =>
          have ha : a.action_name ≠ "game_end" := by
            have := h (t, a) (by simp [appliedList, List.filterMap_cons, appliedOf])
            simpa using this
          have hrest : ∀ p ∈ appliedList rest, p.2.action_name ≠ "game_end" := by
            intro p hp
            exact h p (by simp [appliedList, List.filterMap_cons, appliedOf] at hp ⊢; exact Or.inr hp)
          simpa [gameEndApplies, List.filter_cons, Ev.isGameEndApply, ha] using ih hrest

theorem srEnter_fields (s : RepGameState) (timestamp : Nat) :
    (srEnter s timestamp).lastTick = s.lastTick ∧
    (srEnter s timestamp).trace = s.trace ∧
    (srEnter s timestamp).pid = s.pid := by
  rcases hb : s.buffer with _ | b <;> rcases hq : s.queue with _ | ⟨b', rest⟩ <;>
    simp [srEnter, hb, hq]

theorem setRoundGo_none (timestamp : Nat) (q : List (Nat × Action)) (s : RepGameState) :
    setRoundGo timestamp none q s = ({ s with buffer := none, queue := q }, false) := by
  cases q <;> rfl

theorem setRoundGo_notDue (timestamp t : Nat) (a : Action) (q : List (Nat × Action))
    (s : RepGameState) (ht : ¬ t < timestamp) :
    setRoundGo timestamp (some (t, a)) q s = ({ s with buffer := some (t, a), queue := q }, false) := by
  cases q <;> simp only [setRoundGo, if_neg ht]

theorem setRoundGo_gameEnd (timestamp t : Nat) (a : Action) (q : List (Nat × Action))
    (s : RepGameState) (ht : t < timestamp) (hge : a.action_name = "game_end") :
    setRoundGo timestamp (some (t, a)) q s =
      ({ s with buffer := some (t, a), queue := q,
                lastTick := s.lastTick + (t - s.lastTick),
                trace := s.trace ++ List.replicate (t - s.lastTick) Ev.tick,
                timer := { s.timer with elapsed := realTime t } }, false) := by
  cases q <;> simp only [setRoundGo, if_pos ht, if_pos hge, advanceTicks_eq]

theorem setRoundGo_exhaust (timestamp t : Nat) (a : Action) (s : RepGameState)
    (ht : t < timestamp) (hge : ¬ a.action_name = "game_end") :
    setRoundGo timestamp (some (t, a)) [] s =
      ({ s with buffer := some (t, a), queue := [],
                lastTick := s.lastTick + (t - s.lastTick),
                trace := s.trace ++ List.replicate (t - s.lastTick) Ev.tick ++ [Ev.apply t a] },
       true) := by
  simp only [setRoundGo, if_pos ht, if_neg hge, advanceTicks_eq, List.append_assoc]

theorem setRoundGo_step (timestamp t : Nat) (a : Action) (b : Nat × Action)
    (rest : List (Nat × Action)) (s : RepGameState)
    (ht : t < timestamp) (hge : ¬ a.action_name = "game_end") :
    setRoundGo timestamp (some (t, a)) (b :: rest) s =
      setRoundGo timestamp (some b) rest
        { s with buffer := some b, queue := rest,
                 lastTick := s.lastTick + (t - s.lastTick),
                 trace := (s.trace ++ List.replicate (t - s.lastTick) Ev.tick) ++ [Ev.apply t a] } := by
  simp only [setRoundGo, if_pos ht, if_neg hge, advanceTicks_eq]

theorem setRoundGo_pid (timestamp : Nat) :
    ∀ (q : List (Nat × Action)) (buf : Option (Nat × Action)) (s : RepGameState),
    (setRoundGo timestamp buf q s).1.pid = s.pid := by
  intro q
  induction q with
  | nil =>
      intro buf s
      match buf with
      | none => rw [setRoundGo_none]
      | some (t, a) =>
          by_cases ht : t < timestamp
          · by_cases hge : a.action_name = "game_end"
            · rw [setRoundGo_gameEnd _ _ _ _ _ ht hge]
            · rw [setRoundGo_exhaust _ _ _ _ ht hge]
          · rw [setRoundGo_notDue _ _ _ _ _ ht]
  | cons b rest ih =>
      intro buf s
      match buf with
      | none => rw [setRoundGo_none]
      | some (t, a) =>
          by_cases ht : t < timestamp
          · by_cases hge : a.action_name = "game_end"
            · rw [setRoundGo_gameEnd _ _ _ _ _ ht hge]
            · rw [setRoundGo_step _ _ _ _ _ _ ht hge, ih]
          · rw [setRoundGo_notDue _ _ _ _ _ ht]

/-- Combined behavioural facts about the replay loop of `RepGame.set_round`:
`lastTick` is monotone and stays below the target if it started below it, and
the trace is extended by a suffix whose tick events count exactly the
`lastTick` increments and whose applied actions all have timestamps below the
target (and at most the final `lastTick`) and are never the terminal
`game_end` action. -/
theorem setRoundGo_spec (timestamp : Nat) :
    ∀ (q : List (Nat × Action)) (buf : Option (Nat × Action)) (s : RepGameState),
    s.lastTick ≤ (setRoundGo timestamp buf q s).1.lastTick ∧
    (s.lastTick < timestamp → (setRoundGo timestamp buf q s).1.lastTick < timestamp) ∧
    ∃ d, (setRoundGo timestamp buf q s).1.trace = s.trace ++ d ∧
      tickCount d = (setRoundGo timestamp buf q s).1.lastTick - s.lastTick ∧
      ∀ p ∈ appliedList d, p.1 < timestamp ∧
        p.1 ≤ (setRoundGo timestamp buf q s).1.lastTick ∧
        p.2.action_name ≠ "game_end" := by
  intro q
  induction q with
  | nil =>
      intro buf s
      match buf with
      | none =>
          rw [setRoundGo_none]
          exact ⟨le_refl _, fun h => h, [], by simp, by simp [tickCount], by simp [appliedList]⟩
      | some (t, a) =>
          by_cases ht : t < timestamp
          · by_cases hge : a.action_name = "game_end"
            · rw [setRoundGo_gameEnd _ _ _ _ _ ht hge]
              refine ⟨by dsimp only; omega, by dsimp only; omega,
                List.replicate (t - s.lastTick) Ev.tick, rfl, ?_, ?_⟩
              · rw [tickCount_replicate_tick]; dsimp only; omega
              · simp [appliedList_replicate_tick]
            · rw [setRoundGo_exhaust _ _ _ _ ht hge]
              have h0 : tickCount [Ev.apply t a] = 0 := rfl
              have happ : appliedList [Ev.apply t a] = [(t, a)] := rfl
              refine ⟨by dsimp only; omega, by dsimp only; omega,
                List.replicate (t - s.lastTick) Ev.tick ++ [Ev.apply t a], by dsimp only; simp, ?_, ?_⟩
              · rw [tickCount_append, tickCount_replicate_tick, h0]
                dsimp only; omega
              · intro p hp
                rw [appliedList_append, appliedList_replicate_tick, happ] at hp
                simp only [List.nil_append, List.mem_singleton] at hp
                subst hp
                exact ⟨ht, by dsimp only; omega, hge⟩
          · rw [setRoundGo_notDue _ _ _ _ _ ht]
            exact ⟨le_refl _, fun h => h, [], by simp, by simp [tickCount], by simp [appliedList]⟩
  | cons b rest ih =>
      intro buf s
      match buf with
      | none =>
          rw [setRoundGo_none]
          exact ⟨le_refl _, fun h => h, [], by simp, by simp [tickCount], by simp [appliedList]⟩
      | some (t, a) =>
          by_cases ht : t < timestamp
          · by_cases hge : a.action_name = "game_end"
            · rw [setRoundGo_gameEnd _ _ _ _ _ ht hge]
              refine ⟨by dsimp only; omega, by dsimp only; omega,
                List.replicate (t - s.lastTick) Ev.tick, rfl, ?_, ?_⟩
              · rw [tickCount_replicate_tick]; dsimp only; omega
              · simp [appliedList_replicate_tick]
            · rw [setRoundGo_step _ _ _ _ _ _ ht hge]
              obtain ⟨h₁, h₂, d, hd, hdc, hda⟩ := ih (some b)
                { s with buffer := some b, queue := rest,
                         lastTick := s.lastTick + (t - s.lastTick),
                         trace := (s.trace ++ List.replicate (t - s.lastTick) Ev.tick) ++ [Ev.apply t a] }
              dsimp only at h₁ h₂ hd hdc hda
              have h0 : tickCount [Ev.apply t a] = 0 := rfl
              have happ : appliedList [Ev.apply t a] = [(t, a)] := rfl
              refine ⟨by omega, fun h => h₂ (by omega), ?_⟩
              refine ⟨(List.replicate (t - s.lastTick) Ev.tick ++ [Ev.apply t a]) ++ d, ?_, ?_, ?_⟩
              · rw [hd]; simp [List.append_assoc]
              · rw [tickCount_append, tickCount_append, tickCount_replicate_tick, h0, hdc]
                omega
              · intro p hp
                rw [appliedList_append, appliedList_append, appliedList_replicate_tick, happ] at hp
                simp only [List.nil_append, List.mem_append, List.mem_singleton] at hp
                rcases hp with hp | hp
                · subst hp
                  exact ⟨ht, by omega, hge⟩
                · obtain ⟨hp1, hp2, hp3⟩ := hda p hp
                  exact ⟨hp1, hp2, hp3⟩
          · rw [setRoundGo_notDue _ _ _ _ _ ht]
            exact ⟨le_refl _, fun h => h, [], by simp, by simp [tickCount], by simp [appliedList]⟩

theorem set_round_noop (s : RepGameState) (timestamp : Nat) (h : timestamp ≤ s.lastTick) :
    RepGame.set_round s timestamp = (s, false) := by
  rw [RepGame.set_round, if_neg (Nat.not_lt.mpr h)]

/-- Master behavioural lemma for a genuine (forward) `RepGame.set_round`:
the final `lastTick` is exactly the target, the player identity is kept, and
the new trace suffix has one tick event per `lastTick` increment while every
applied action has timestamp below the target and is not `game_end`. -/
theorem set_round_spec (s : RepGameState) (timestamp : Nat) (h : s.lastTick < timestamp) :
    (RepGame.set_round s timestamp).1.lastTick = timestamp ∧
    (RepGame.set_round s timestamp).1.pid = s.pid ∧
    ∃ d, (RepGame.set_round s timestamp).1.trace = s.trace ++ d ∧
      tickCount d = timestamp - s.lastTick ∧
      ∀ p ∈ appliedList d, p.1 < timestamp ∧ p.2.action_name ≠ "game_end" := by
  obtain ⟨he1, he2, he3⟩ := srEnter_fields s timestamp
  obtain ⟨h₁, h₂, d, hd, hdc, hda⟩ := setRoundGo_spec timestamp
    (srEnter s timestamp).queue (srEnter s timestamp).buffer (srEnter s timestamp)
  have hpid := setRoundGo_pid timestamp
    (srEnter s timestamp).queue (srEnter s timestamp).buffer (srEnter s timestamp)
  rw [he1] at h₁ h₂ hdc
  rw [he2] at hd
  rw [he3] at hpid
  have hlt := h₂ h
  have hloop : setRoundLoop timestamp (srEnter s timestamp) =
      setRoundGo timestamp (srEnter s timestamp).buffer (srEnter s timestamp).queue
        (srEnter s timestamp) := rfl
  rw [RepGame.set_round, if_pos h]
  dsimp only
  rw [hloop, advanceTicks_eq]
  dsimp only
  set r := (setRoundGo timestamp (srEnter s timestamp).buffer (srEnter s timestamp).queue
    (srEnter s timestamp)).1 with hr
  refine ⟨by omega, hpid, d ++ List.replicate (timestamp - r.lastTick) Ev.tick, ?_, ?_, ?_⟩
  · rw [hd, List.append_assoc]
  · rw [tickCount_append, tickCount_replicate_tick, hdc]
    omega
  · intro p hp
    rw [appliedList_append, appliedList_replicate_tick, List.append_nil] at hp
    exact ⟨(hda p hp).1, (hda p hp).2.2⟩

theorem set_round_lastTick (s : RepGameState) (timestamp : Nat) :
    (RepGame.set_round s timestamp).1.lastTick = max s.lastTick timestamp := by
  by_cases h : s.lastTick < timestamp
  · rw [(set_round_spec s timestamp h).1, Nat.max_eq_right (Nat.le_of_lt h)]
  · rw [set_round_noop s timestamp (Nat.not_lt.mp h), Nat.max_eq_left (Nat.not_lt.mp h)]

theorem set_round_mono (s : RepGameState) (timestamp : Nat) :
    s.lastTick ≤ (RepGame.set_round s timestamp).1.lastTick := by
  rw [set_round_lastTick]
  exact le_max_left _ _

theorem set_round_pid (s : RepGameState) (timestamp : Nat) :
    (RepGame.set_round s timestamp).1.pid = s.pid := by
  by_cases h : s.lastTick < timestamp
  · exact (set_round_spec s timestamp h).2.1
  · rw [set_round_noop s timestamp (Nat.not_lt.mp h)]

theorem set_round_tickCount (s : RepGameState) (timestamp : Nat) :
    tickCount (RepGame.set_round s timestamp).1.trace =
      tickCount s.trace + ((RepGame.set_round s timestamp).1.lastTick - s.lastTick) := by
  by_cases h : s.lastTick < timestamp
  · obtain ⟨hl, -, d, hd, hdc, -⟩ := set_round_spec s timestamp h
    rw [hd, tickCount_append, hdc, hl]
  · rw [set_round_noop s timestamp (Nat.not_lt.mp h)]
    simp

theorem set_round_gameEnd_free (s : RepGameState) (timestamp : Nat) :
    gameEndApplies (RepGame.set_round s timestamp).1.trace = gameEndApplies s.trace := by
  by_cases h : s.lastTick < timestamp
  · obtain ⟨-, -, d, hd, -, hda⟩ := set_round_spec s timestamp h
    rw [hd, gameEndApplies_append, gameEndApplies_eq_zero d (fun p hp => (hda p hp).2)]
    omega
  · rw [set_round_noop s timestamp (Nat.not_lt.mp h)]

theorem set_round_applied_bounded (s : RepGameState) (timestamp : Nat)
    (hs : ∀ p ∈ appliedList s.trace, p.1 ≤ s.lastTick) :
    ∀ p ∈ appliedList (RepGame.set_round s timestamp).1.trace,
      p.1 ≤ (RepGame.set_round s timestamp).1.lastTick := by
  by_cases h : s.lastTick < timestamp
  · obtain ⟨hl, -, d, hd, -, hda⟩ := set_round_spec s timestamp h
    intro p hp
    rw [hd, appliedList_append, List.mem_append] at hp
    rw [hl]
    rcases hp with hp | hp
    · exact le_trans (hs p hp) (Nat.le_of_lt h)
    · exact Nat.le_of_lt (hda p hp).1
  · rw [set_round_noop s timestamp (Nat.not_lt.mp h)]
    exact hs

theorem getLast?_getD_cons (a : Nat) (l : List Nat) (r : Nat) :
    ((a :: l).getLast?).getD r = (l.getLast?).getD a := by
  cases l with
  | nil => rfl
  | cons b l' =>
      rw [List.getLast?_cons_cons]
      rcases hx : (b :: l').getLast? with _ | x
      · rw [List.getLast?_eq_none_iff] at hx
        exact absurd hx (by simp)
      · rfl

theorem gameEndTimes_cons_record (t? : Option Nat) (a? : Option String) (raw : String)
    (rest : List SrcLine) :
    gameEndTimes (SrcLine.record t? a? raw :: rest) =
      if a? = some "game_end" then (t?.getD 0) :: gameEndTimes rest else gameEndTimes rest := by
  by_cases hge : a? = some "game_end" <;>
    simp [gameEndTimes, List.filterMap_cons, hge]

/-- On a source with no malformed line, `_load_queue`\'s iteration appends one
record per line in order, returns the time of the last `game_end` record
(threading the accumulator), and never aborts. -/
theorem loadLines_wf (ls : List SrcLine) (hwf : ∀ l ∈ ls, l ≠ SrcLine.bad) :
    ∀ r, loadLines ls r = ((gameEndTimes ls).getLast?.getD r, ls.map lineRecord, false) := by
  induction ls with
  | nil => intro r; rfl
  | cons l rest ih =>
      intro r
      have hrest : ∀ x ∈ rest, x ≠ SrcLine.bad := fun x hx => hwf x (List.mem_cons_of_mem _ hx)
      match l with
      | SrcLine.bad => exact absurd rfl (hwf SrcLine.bad (by simp))
      | SrcLine.record t? a? raw =>
          by_cases hge : a? = some "game_end"
          · rw [loadLines, if_pos hge, ih hrest (t?.getD 0)]
            rw [gameEndTimes_cons_record, if_pos hge]
            simp [lineRecord, hge, getLast?_getD_cons]
          · rw [loadLines, if_neg hge, ih hrest r]
            rw [gameEndTimes_cons_record, if_neg hge]
            simp [lineRecord, hge]

/-- C8: Player-level seek `RepGame.set_round(targetTick)` with
`targetTick <= lastTick` is a strict no-op: the returned state is the input
state unchanged — same `lastTick`, clock, lookahead buffer, Pending Queue and
logic-engine trace — and no error is logged. -/
theorem C8_noop_seek (s : RepGameState) (timestamp : Nat)
    (h : timestamp ≤ s.lastTick) :
    RepGame.set_round s timestamp = (s, false) := by
  rw [RepGame.set_round, if_neg (Nat.not_lt.mpr h)]

theorem C8_witness :
    (3 : Nat) ≤ 5 ∧
    RepGame.set_round
        { lastTick := 5, timer := freshTimer, buffer := none, queue := [],
          trace := [], pid := 0 } 3 =
      ({ lastTick := 5, timer := freshTimer, buffer := none, queue := [],
         trace := [], pid := 0 }, false) :=
  ⟨by decide,
   C8_noop_seek
     { lastTick := 5, timer := freshTimer, buffer := none, queue := [],
       trace := [], pid := 0 } 3 (by decide)⟩

/-- C3: Player-level seek never applies the terminal `game_end` action (the
count of applied `game_end` actions never grows across `set_round`), and on
the pending queue [(0, init), (5, instrA), (12, instrB), (20, gameEnd)] a
seek to tick 20 from a fresh start applies exactly init, instrA, instrB in
that order, ends with `lastTick = 20`, and never applies gameEnd. -/
theorem C3_gameEnd_never_applied :
    (∀ (s : RepGameState) (timestamp : Nat),
      gameEndApplies (RepGame.set_round s timestamp).1.trace = gameEndApplies s.trace) ∧
    appliedList (RepGame.set_round c3start 20).1.trace =
      [(0, initAct), (5, instrA), (12, instrB)] ∧
    (RepGame.set_round c3start 20).1.lastTick = 20 ∧
    gameEndApplies (RepGame.set_round c3start 20).1.trace = 0 :=
  ⟨set_round_gameEnd_free, by decide, by decide, by decide⟩

/-- C4 (counterexample): on a player whose buffer holds the pending
instruction (2, x) and whose queue is already empty, `set_round(10)` logs
the premature-end error, yet the resulting `lastTick` is the full target 10:
processing does NOT stop at the last available tick and the session is NOT
left short of the requested target, contradicting the claim. -/
theorem C4_counterexample :
    (RepGame.set_round c4start 10).2 = true ∧
    (RepGame.set_round c4start 10).1.lastTick = 10 := by decide

/-- C4 (amended): if the Pending Queue is exhausted before the seek target
is reached during the gap-closing replay, an error-level log entry is
produced and no further queued actions are applied, but the failure is not
fatal and tick advancement still continues up to the target: the resulting
`lastTick` equals the requested target rather than stopping short. -/
theorem C4_amended (s : RepGameState) (timestamp : Nat)
    (h : s.lastTick < timestamp)
    (_herr : (RepGame.set_round s timestamp).2 = true) :
    (RepGame.set_round s timestamp).1.lastTick = timestamp :=
  (set_round_spec s timestamp h).1

theorem C4_witness :
    c4start.lastTick < 10 ∧ (RepGame.set_round c4start 10).2 = true ∧
    (RepGame.set_round c4start 10).1.lastTick = 10 :=
  ⟨by decide, by decide, C4_amended c4start 10 (by decide) (by decide)⟩

/-- C5 (counterexample): a readable source whose second line is malformed
JSON — `json.loads` raises, the exception is swallowed by the `return`
inside `finally` — is loaded with NO error log and WITHOUT the synthetic
terminal record: the queue keeps the prefix record (3, good) instead of
containing exactly one synthetic `game_end` at tick 0. -/
theorem C5_counterexample :
    (_load_queue badJsonSrc []).errorLogged = false ∧
    (_load_queue badJsonSrc []).queue = [(3, ⟨"instruction", "good"⟩)] ∧
    ¬ (_load_queue badJsonSrc []).queue = [(0, syntheticEnd)] ∧
    (_load_queue badJsonSrc []).aborted = true := by decide

/-- C5 (amended): for an UNREADABLE replay source (OSError while opening or
reading), loading logs an error and substitutes exactly one synthetic
terminal `game_end` record at tick 0, `totalTicks` is 0, and the constructed
session is immediately finished (after the constructor pops the synthetic
record, buffer and queue are empty, so every `mainloop` iteration returns at
its terminal condition).  A malformed-but-readable source is NOT handled
this way: the parse error aborts loading silently, keeping the prefix
already read (see the counterexample). -/
theorem C5_amended :
    _load_queue Source.unreadable [] =
      { rounds := 0, queue := [(0, syntheticEnd)], errorLogged := true, aborted := false } ∧
    syntheticEnd.action_name = "game_end" ∧
    totalTicksOf Source.unreadable = 0 ∧
    ∃ m, RepManager.init Source.unreadable = some m ∧
      m.active.buffer = none ∧ m.active.queue = [] ∧ m.rounds = 0 ∧
      ∀ env : MainEnv, ∃ s', mainloopStep m.active env = StepRes.finished s' := by
  refine ⟨by decide, by decide, by decide, ?_⟩
  refine ⟨_, rfl, rfl, rfl, rfl, ?_⟩
  intro env
  exact ⟨_, rfl⟩

/-- C9: `_load_queue` never stops at a terminal record: for a readable source
with no malformed line, every record is appended to the queue in file order —
including any records after a `game_end`, with an absent `time` field loaded
as timestamp 0 — the returned total-tick count is the `time` of the last
`game_end` record of the source (0 when there is none), and the iteration is
never cut short. -/
theorem C9_loader_total (ls : List SrcLine) (hwf : ∀ l ∈ ls, l ≠ SrcLine.bad) :
    (_load_queue (Source.content ls) []).queue = ls.map lineRecord ∧
    (_load_queue (Source.content ls) []).rounds = lastGameEndTime ls ∧
    (_load_queue (Source.content ls) []).aborted = false := by
  have h := loadLines_wf ls hwf 0
  refine ⟨?_, ?_, ?_⟩ <;> simp [_load_queue, h, lastGameEndTime]

theorem C9_witness :
    (_load_queue (Source.content
        [SrcLine.record (some 4) (some "move") "a",
         SrcLine.record none (some "move") "b",
         SrcLine.record (some 9) (some "game_end") "c",
         SrcLine.record (some 11) (some "move") "d"]) []).queue =
      [SrcLine.record (some 4) (some "move") "a",
       SrcLine.record none (some "move") "b",
       SrcLine.record (some 9) (some "game_end") "c",
       SrcLine.record (some 11) (some "move") "d"].map lineRecord ∧
    (_load_queue (Source.content
        [SrcLine.record (some 4) (some "move") "a",
         SrcLine.record none (some "move") "b",
         SrcLine.record (some 9) (some "game_end") "c",
         SrcLine.record (some 11) (some "move") "d"]) []).rounds =
      lastGameEndTime
        [SrcLine.record (some 4) (some "move") "a",
         SrcLine.record none (some "move") "b",
         SrcLine.record (some 9) (some "game_end") "c",
         SrcLine.record (some 11) (some "move") "d"] ∧
    (_load_queue (Source.content
        [SrcLine.record (some 4) (some "move") "a",
         SrcLine.record none (some "move") "b",
         SrcLine.record (some 9) (some "game_end") "c",
         SrcLine.record (some 11) (some "move") "d"]) []).aborted = false :=
  C9_loader_total
    [SrcLine.record (some 4) (some "move") "a",
     SrcLine.record none (some "move") "b",
     SrcLine.record (some 9) (some "game_end") "c",
     SrcLine.record (some 11) (some "move") "d"] (by decide)

/-- C10: the manager constructor pops the first record off the freshly
loaded Pending Queue and applies it to the logic engine immediately: before
any playback loop runs, the active player's applied history is exactly that
first record and its queue holds the remaining records.  Consequently, for
an unreadable source the single synthetic `game_end` record is itself popped
and run as a regular action at construction, leaving the queue empty. -/
theorem C10_init_pops_first (src : Source) (m : RepManagerState)
    (h : RepManager.init src = some m) :
    (∃ t a rest, (_load_queue src []).queue = (t, a) :: rest ∧
      m.active.trace = [Ev.apply t a] ∧ m.active.queue = rest) ∧
    (RepManager.init Source.unreadable).map
        (fun m0 => (m0.active.queue, m0.active.trace)) =
      some ([], [Ev.apply 0 syntheticEnd]) := by
  refine ⟨?_, by decide⟩
  rcases hq : (freshLoaded src 0).queue with _ | ⟨⟨t, a⟩, rest⟩
  · rw [RepManager.init.eq_def, hq] at h
    exact absurd h (by simp)
  · rw [RepManager.init.eq_def, hq] at h
    simp only [Option.some.injEq] at h
    subst h
    exact ⟨t, a, rest, hq, rfl, rfl⟩

theorem C10_witness :
    ∃ t a rest, (_load_queue sampleSrc []).queue = (t, a) :: rest ∧
      sampleInitMgr.active.trace = [Ev.apply t a] ∧
      sampleInitMgr.active.queue = rest :=
  (C10_init_pops_first sampleSrc sampleInitMgr (by decide)).1

theorem mem_storeInsert (k : Nat) (p : RepGameState) :
    ∀ (l : List (Nat × RepGameState)) (kp : Nat × RepGameState),
    kp ∈ storeInsert k p l ↔ kp = (k, p) ∨ kp ∈ l := by
  intro l
  induction l with
  | nil => intro kp; simp [storeInsert]
  | cons hd rest ih =>
      intro kp
      obtain ⟨k', p'⟩ := hd
      rw [storeInsert]
      by_cases hk : k < k'
      · rw [if_pos hk]
        simp [List.mem_cons]
      · rw [if_neg hk]
        simp only [List.mem_cons, ih]
        tauto

theorem hasKey_false (k : Nat) (l : List (Nat × RepGameState))
    (h : hasKey k l = false) : ∀ kp ∈ l, kp.1 ≠ k := by
  intro kp hkp he
  rw [hasKey] at h
  have : l.any (fun kp => kp.1 == k) = true := List.any_eq_true.mpr ⟨kp, hkp, by simp [he]⟩
  rw [this] at h
  exact absurd h (by simp)

theorem storeInsert_sorted (k : Nat) (p : RepGameState) :
    ∀ (l : List (Nat × RepGameState)),
    l.Pairwise (fun x y => x.1 < y.1) → (∀ kp ∈ l, kp.1 ≠ k) →
    (storeInsert k p l).Pairwise (fun x y => x.1 < y.1) := by
  intro l
  induction l with
  | nil => intro _ _; simp [storeInsert]
  | cons hd rest ih =>
      intro hs hk
      obtain ⟨k', p'⟩ := hd
      obtain ⟨hhd, hrest⟩ := List.pairwise_cons.mp hs
      rw [storeInsert]
      by_cases hlt : k < k'
      · rw [if_pos hlt]
        refine List.Pairwise.cons ?_ hs
        intro y hy
        rcases List.mem_cons.mp hy with h | h
        · rw [h]; exact hlt
        · exact lt_trans hlt (hhd y h)
      · rw [if_neg hlt]
        have hk' : k' < k :=
          lt_of_le_of_ne (Nat.not_lt.mp hlt) fun he => hk (k', p') (by simp) he
        refine List.Pairwise.cons ?_
          (ih hrest fun kp hkp => hk kp (List.mem_cons_of_mem _ hkp))
        intro y hy
        rcases (mem_storeInsert k p rest y).mp hy with h | h
        · rw [h]; exact hk'
        · exact hhd y h

theorem storePids_insert_perm (k : Nat) (p : RepGameState) :
    ∀ l, (storePids (storeInsert k p l)).Perm (p.pid :: storePids l) := by
  intro l
  induction l with
  | nil => exact List.Perm.refl _
  | cons hd rest ih =>
      obtain ⟨k', p'⟩ := hd
      rw [storeInsert]
      by_cases hlt : k < k'
      · rw [if_pos hlt]
        exact List.Perm.refl _
      · rw [if_neg hlt]
        have h1 : (storePids ((k', p') :: storeInsert k p rest)).Perm
            (p'.pid :: p.pid :: storePids rest) := List.Perm.cons _ ih
        exact h1.trans (List.Perm.swap _ _ _)

theorem storeErase_sublist (k : Nat) :
    ∀ l : List (Nat × RepGameState), (storeErase k l).Sublist l := by
  intro l
  induction l with
  | nil => simp [storeErase]
  | cons hd rest ih =>
      rw [storeErase]
      by_cases h : hd.1 = k
      · rw [if_pos h]
        exact List.sublist_cons_self _ _
      · rw [if_neg h]
        exact ih.cons₂ hd

theorem erase_pid_notin (k : Nat) (p : RepGameState) :
    ∀ l, (storePids l).Nodup → (∀ kp ∈ l, kp.1 = k → kp = (k, p)) → (k, p) ∈ l →
      p.pid ∉ storePids (storeErase k l) := by
  intro l
  induction l with
  | nil => intro _ _ h; simp at h
  | cons hd rest ih =>
      intro hnd huniq hmem
      have hnd' := hnd
      rw [show storePids (hd :: rest) = hd.2.pid :: storePids rest from rfl,
        List.nodup_cons] at hnd'
      rw [storeErase]
      by_cases h : hd.1 = k
      · rw [if_pos h]
        have hhd : hd = (k, p) := huniq hd (by simp) h
        rw [hhd] at hnd'
        exact hnd'.1
      · rw [if_neg h]
        have hmem' : (k, p) ∈ rest := by
          rcases List.mem_cons.mp hmem with he | he
          · exact absurd (congrArg Prod.fst he.symm) h
          · exact he
        have hp : p.pid ∈ storePids rest := List.mem_map.mpr ⟨(k, p), hmem', rfl⟩
        intro hcon
        rw [show storePids (hd :: storeErase k rest) = hd.2.pid :: storePids (storeErase k rest)
          from rfl] at hcon
        rcases List.mem_cons.mp hcon with he | he
        · exact hnd'.1 (he ▸ hp)
        · exact ih hnd'.2 (fun kp hkp hk => huniq kp (List.mem_cons_of_mem _ hkp) hk) hmem' he

theorem sorted_keys_nodup (l : List (Nat × RepGameState))
    (hs : l.Pairwise fun x y => x.1 < y.1) : (storeKeys l).Nodup :=
  List.Pairwise.map Prod.fst (fun _ _ h => Nat.ne_of_lt h) hs

theorem assoc_unique (l : List (Nat × RepGameState)) (hnd : (storeKeys l).Nodup) :
    ∀ k (p p' : RepGameState), (k, p) ∈ l → (k, p') ∈ l → p = p' := by
  induction l with
  | nil => intro k p p' h; simp at h
  | cons hd rest ih =>
      intro k p p' hp hp'
      rw [show storeKeys (hd :: rest) = hd.1 :: storeKeys rest from rfl,
        List.nodup_cons] at hnd
      rcases List.mem_cons.mp hp with he | he <;> rcases List.mem_cons.mp hp' with he' | he'
      · exact congrArg Prod.snd (he.trans he'.symm)
      · exfalso
        subst he
        exact hnd.1 (List.mem_map.mpr ⟨(k, p'), he', rfl⟩)
      · exfalso
        subst he'
        exact hnd.1 (List.mem_map.mpr ⟨(k, p), he, rfl⟩)
      · exact ih hnd.2 k p p' he he'

theorem mem_of_getLast? {α : Type} : ∀ (l : List α) (a : α), l.getLast? = some a → a ∈ l
  | [], a, h => by simp at h
  | [b], a, h => by
      simp at h
      simp [h]
  | b :: c :: rest, a, h => by
      rw [List.getLast?_cons_cons] at h
      exact List.mem_cons_of_mem _ (mem_of_getLast? (c :: rest) a h)

theorem getLast?_max {α : Type} (R : α → α → Prop) :
    ∀ (l : List α), l.Pairwise R → ∀ a, l.getLast? = some a → ∀ b ∈ l, b = a ∨ R b a
  | [], _, a, h => by simp at h
  | [c], hp, a, h => by
      simp at h
      intro b hb
      simp at hb
      rw [hb, h]
      exact Or.inl rfl
  | c :: d :: rest, hp, a, h => by
      rw [List.getLast?_cons_cons] at h
      intro b hb
      rcases List.mem_cons.mp hb with he | he
      · have ha := mem_of_getLast? _ _ h
        rw [he]
        exact Or.inr ((List.pairwise_cons.mp hp).1 a ha)
      · exact getLast?_max R (d :: rest) (List.pairwise_cons.mp hp).2 a h b he

theorem storeFindLE_mem (timestamp : Nat) (l : List (Nat × RepGameState))
    (kp : Nat × RepGameState) (h : storeFindLE timestamp l = some kp) :
    kp ∈ l ∧ kp.1 ≤ timestamp := by
  have hm := mem_of_getLast? _ _ h
  have h2 := List.mem_filter.mp hm
  exact ⟨h2.1, by simpa using h2.2⟩

theorem storeFindLE_none (timestamp : Nat) (l : List (Nat × RepGameState))
    (h : storeFindLE timestamp l = none) : ∀ kp ∈ l, timestamp < kp.1 := by
  intro kp hkp
  by_contra hle
  have hmem : kp ∈ l.filter (fun x => decide (x.1 ≤ timestamp)) :=
    List.mem_filter.mpr ⟨hkp, by simpa using Nat.not_lt.mp hle⟩
  rw [storeFindLE, List.getLast?_eq_none_iff] at h
  rw [h] at hmem
  simp at hmem

theorem storeFindLE_greatest (timestamp : Nat) (l : List (Nat × RepGameState))
    (hs : l.Pairwise fun x y => x.1 < y.1) (kp : Nat × RepGameState)
    (h : storeFindLE timestamp l = some kp) :
    ∀ x ∈ l, x.1 ≤ timestamp → x.1 ≤ kp.1 := by
  intro x hx hxle
  have hxf : x ∈ l.filter (fun y => decide (y.1 ≤ timestamp)) :=
    List.mem_filter.mpr ⟨hx, by simpa using hxle⟩
  have hsf : (l.filter (fun y => decide (y.1 ≤ timestamp))).Pairwise
      (fun a b => a.1 < b.1) := hs.filter _
  rcases getLast?_max _ _ hsf kp h x hxf with he | hlt
  · rw [he]
  · exact Nat.le_of_lt hlt

theorem assoc_unique_pair (l : List (Nat × RepGameState)) (hnd : (storeKeys l).Nodup)
    (kp kq : Nat × RepGameState) (h1 : kp ∈ l) (h2 : kq ∈ l) (he : kp.1 = kq.1) :
    kp = kq := by
  obtain ⟨k1, p1⟩ := kp
  obtain ⟨k2, p2⟩ := kq
  simp only at he
  subst he
  rw [assoc_unique l hnd k1 p1 p2 h1 h2]

theorem retireActive_spec (m : RepManagerState)
    (hat : ∀ p ∈ appliedList m.active.trace, p.1 ≤ m.active.lastTick) :
    (retireActive m).lastTick = m.active.lastTick + 1 ∧
    (retireActive m).pid = m.active.pid ∧
    ∀ p ∈ appliedList (retireActive m).trace, p.1 ≤ (retireActive m).lastTick := by
  have h : (stopTimer m.active).lastTick < (stopTimer m.active).lastTick + 1 :=
    Nat.lt_succ_self _
  refine ⟨(set_round_spec _ _ h).1, ?_, ?_⟩
  · show (RepGame.set_round (stopTimer m.active) ((stopTimer m.active).lastTick + 1)).1.pid =
      m.active.pid
    rw [set_round_pid]
    rfl
  · exact set_round_applied_bounded _ _ hat

/-- Facts about the checkpoint store after the retired active player has
been (conditionally) inserted: keys are the stored `lastTick`s and strictly
sorted, pids distinct and bounded, traces bounded, and every entry is either
an old entry or the just-retired player keyed by its `lastTick`. -/
theorem retiredStore_facts (m : RepManagerState) (hInv : MgrInv m) :
    (∀ kp ∈ retiredStore m, (kp : Nat × RepGameState).2.lastTick = kp.1) ∧
    ((retiredStore m).Pairwise fun x y => x.1 < y.1) ∧
    (storePids (retiredStore m)).Nodup ∧
    (∀ kp ∈ retiredStore m, (kp : Nat × RepGameState).2.pid < m.nextId) ∧
    (∀ kp ∈ retiredStore m, ∀ p ∈ appliedList (kp : Nat × RepGameState).2.trace,
      p.1 ≤ (kp : Nat × RepGameState).2.lastTick) ∧
    (∀ kp ∈ retiredStore m,
      kp ∈ m.games ∨ kp = ((retireActive m).lastTick, retireActive m)) := by
  obtain ⟨hr1, hr2, hr3⟩ := retireActive_spec m hInv.active_trace
  rw [retiredStore]
  by_cases hk : hasKey (retireActive m).lastTick m.games
  · rw [if_pos hk]
    exact ⟨hInv.keys_eq, hInv.keys_sorted, hInv.pids_nodup, hInv.pids_lt, hInv.traces,
      fun kp hkp => Or.inl hkp⟩
  · rw [if_neg hk]
    have hne := hasKey_false _ _ (by simpa using hk)
    refine ⟨?_, ?_, ?_, ?_, ?_, ?_⟩
    · intro kp hkp
      rcases (mem_storeInsert _ _ _ kp).mp hkp with he | he
      · rw [he]
      · exact hInv.keys_eq kp he
    · exact storeInsert_sorted _ _ _ hInv.keys_sorted hne
    · refine (List.Perm.nodup_iff (storePids_insert_perm _ _ _)).mpr ?_
      rw [List.nodup_cons]
      refine ⟨?_, hInv.pids_nodup⟩
      rw [hr2]
      exact hInv.active_notin
    · intro kp hkp
      rcases (mem_storeInsert _ _ _ kp).mp hkp with he | he
      · rw [he]
        show (retireActive m).pid < m.nextId
        rw [hr2]
        exact hInv.active_lt
      · exact hInv.pids_lt kp he
    · intro kp hkp
      rcases (mem_storeInsert _ _ _ kp).mp hkp with he | he
      · rw [he]
        exact hr3
      · exact hInv.traces kp he
    · intro kp hkp
      rcases (mem_storeInsert _ _ _ kp).mp hkp with he | he
      · exact Or.inr he
      · exact Or.inl he

/-- One manager-level seek preserves the manager invariant, leaves the
source and the captured total-tick count untouched, and always lands the
active player exactly on the requested tick. -/
theorem mgr_step (m : RepManagerState) (T : Nat) (m' : RepManagerState)
    (h0 : firstTs m.src = some 0) (hInv : MgrInv m)
    (hstep : RepManager.set_round m T = some m') :
    MgrInv m' ∧ m'.active.lastTick = T ∧ m'.src = m.src ∧ m'.rounds = m.rounds := by
  obtain ⟨hg1, hg2, hg3, hg4, hg5, hg6⟩ := retiredStore_facts m hInv
  rw [RepManager.set_round] at hstep
  by_cases hf : m.active.lastTick < T
  · rw [if_pos hf] at hstep
    simp only [Option.some.injEq] at hstep
    subst hstep
    have hlt : (stopTimer m.active).lastTick < T := hf
    refine ⟨⟨hInv.keys_eq, hInv.keys_sorted, hInv.pids_nodup, ?_, hInv.pids_lt, ?_,
      hInv.traces, ?_⟩, (set_round_spec _ _ hlt).1, rfl, rfl⟩
    · show (RepGame.set_round (stopTimer m.active) T).1.pid ∉ storePids m.games
      rw [set_round_pid]
      exact hInv.active_notin
    · show (RepGame.set_round (stopTimer m.active) T).1.pid < m.nextId
      rw [set_round_pid]
      exact hInv.active_lt
    · exact set_round_applied_bounded _ _ hInv.active_trace
  · rw [if_neg hf] at hstep
    rcases hfind : storeFindLE T (retiredStore m) with _ | ⟨k, p⟩
    · rw [hfind] at hstep
      by_cases hT0 : 0 < T
      · rw [if_pos hT0] at hstep
        simp only [Option.some.injEq] at hstep
        subst hstep
        have hfl : (freshLoaded m.src m.nextId).lastTick < T := hT0
        refine ⟨⟨hg1, hg2, hg3, ?_, ?_, ?_, hg5, ?_⟩, (set_round_spec _ _ hfl).1, rfl, rfl⟩
        · show (RepGame.set_round (freshLoaded m.src m.nextId) T).1.pid ∉
            storePids (retiredStore m)
          rw [set_round_pid]
          intro hcon
          obtain ⟨kp, hkp, hpe⟩ := List.mem_map.mp hcon
          exact absurd hpe (Nat.ne_of_lt (hg4 kp hkp))
        · intro kp hkp
          exact lt_trans (hg4 kp hkp) (Nat.lt_succ_self _)
        · show (RepGame.set_round (freshLoaded m.src m.nextId) T).1.pid < m.nextId + 1
          rw [set_round_pid]
          exact Nat.lt_succ_self _
        · exact set_round_applied_bounded _ _ (fun pr hpr => absurd hpr (List.not_mem_nil pr))
      · rw [if_neg hT0] at hstep
        have hT : T = 0 := by omega
        rcases hq : (freshLoaded m.src m.nextId).queue with _ | ⟨⟨t0, a0⟩, rest⟩
        · rw [hq] at hstep
          exact absurd hstep (by simp)
        · rw [hq] at hstep
          simp only [Option.some.injEq] at hstep
          subst hstep
          have ht0 : t0 = 0 := by
            rw [firstTs] at h0
            rw [show (_load_queue m.src []).queue = (t0, a0) :: rest from hq] at h0
            simpa using h0
          refine ⟨⟨hg1, hg2, hg3, ?_, ?_, ?_, hg5, ?_⟩, ?_, rfl, rfl⟩
          · show m.nextId ∉ storePids (retiredStore m)
            intro hcon
            obtain ⟨kp, hkp, hpe⟩ := List.mem_map.mp hcon
            exact absurd hpe (Nat.ne_of_lt (hg4 kp hkp))
          · intro kp hkp
            exact lt_trans (hg4 kp hkp) (Nat.lt_succ_self _)
          · exact Nat.lt_succ_self _
          · intro pr hpr
            have hpr' : pr = (t0, a0) := by
              simpa [appliedList, appliedOf, freshLoaded, freshRepGame] using hpr
            subst hpr'
            simp [ht0]
          · rw [hT]
            rfl
    · rw [hfind] at hstep
      simp only [Option.some.injEq] at hstep
      subst hstep
      obtain ⟨hkmem, hkle⟩ := storeFindLE_mem T (retiredStore m) (k, p) hfind
      have hpk : p.lastTick = k := hg1 (k, p) hkmem
      have huniq : ∀ kp ∈ retiredStore m, kp.1 = k → kp = (k, p) := by
        intro kp hkp hke
        exact assoc_unique_pair (retiredStore m) (sorted_keys_nodup _ hg2) kp (k, p) hkp hkmem hke
      have hsubt : storeErase k (retiredStore m) ⊆ retiredStore m :=
        (storeErase_sublist k (retiredStore m)).subset
      by_cases hpl : p.lastTick < T
      · rw [if_pos hpl]
        refine ⟨⟨?_, ?_, ?_, ?_, ?_, ?_, ?_, ?_⟩, (set_round_spec _ _ hpl).1, rfl, rfl⟩
        · exact fun kp hkp => hg1 kp (hsubt hkp)
        · exact hg2.sublist (storeErase_sublist k (retiredStore m))
        · exact hg3.sublist ((storeErase_sublist k (retiredStore m)).map _)
        · show (RepGame.set_round p T).1.pid ∉ storePids (storeErase k (retiredStore m))
          rw [set_round_pid]
          exact erase_pid_notin k p (retiredStore m) hg3 huniq hkmem
        · exact fun kp hkp => hg4 kp (hsubt hkp)
        · show (RepGame.set_round p T).1.pid < m.nextId
          rw [set_round_pid]
          exact hg4 (k, p) hkmem
        · exact fun kp hkp => hg5 kp (hsubt hkp)
        · exact set_round_applied_bounded _ _ (hg5 (k, p) hkmem)
      · rw [if_neg hpl]
        have hpT : p.lastTick = T := by omega
        refine ⟨⟨?_, ?_, ?_, ?_, ?_, ?_, ?_, ?_⟩, hpT, rfl, rfl⟩
        · exact fun kp hkp => hg1 kp (hsubt hkp)
        · exact hg2.sublist (storeErase_sublist k (retiredStore m))
        · exact hg3.sublist ((storeErase_sublist k (retiredStore m)).map _)
        · exact erase_pid_notin k p (retiredStore m) hg3 huniq hkmem
        · exact fun kp hkp => hg4 kp (hsubt hkp)
        · exact hg4 (k, p) hkmem
        · exact fun kp hkp => hg5 kp (hsubt hkp)
        · exact hg5 (k, p) hkmem

theorem init_inv (src : Source) (h0 : firstTs src = some 0) (m : RepManagerState)
    (h : RepManager.init src = some m) :
    MgrInv m ∧ m.src = src ∧ m.rounds = totalTicksOf src ∧ m.games = [] := by
  rcases hq : (freshLoaded src 0).queue with _ | ⟨⟨t0, a0⟩, rest⟩
  · rw [RepManager.init.eq_def, hq] at h
    exact absurd h (by simp)
  · rw [RepManager.init.eq_def, hq] at h
    simp only [Option.some.injEq] at h
    subst h
    have ht0 : t0 = 0 := by
      rw [firstTs] at h0
      rw [show (_load_queue src []).queue = (t0, a0) :: rest from hq] at h0
      simpa using h0
    refine ⟨⟨?_, ?_, ?_, ?_, ?_, ?_, ?_, ?_⟩, rfl, rfl, rfl⟩
    · intro kp hkp
      exact absurd hkp (List.not_mem_nil kp)
    · exact List.Pairwise.nil
    · exact List.nodup_nil
    · exact List.not_mem_nil _
    · intro kp hkp
      exact absurd hkp (List.not_mem_nil kp)
    · exact Nat.lt_succ_self 0
    · intro kp hkp
      exact absurd hkp (List.not_mem_nil kp)
    · intro pr hpr
      have hpr' : pr = (t0, a0) := by
        simpa [appliedList, appliedOf, freshLoaded, freshRepGame] using hpr
      subst hpr'
      simp [ht0, freshLoaded, freshRepGame]

theorem mgrSeek_none (seeks : List Nat) :
    List.foldl mgrSeek none seeks = none := by
  induction seeks with
  | nil => rfl
  | cons T rest ih =>
      rw [List.foldl_cons]
      exact ih

/-- Along any successful seek sequence from a well-formed construction, the
manager invariant holds and the source and total-tick count are those of the
construction. -/
theorem mgrRun_inv (src : Source) (h0 : firstTs src = some 0) :
    ∀ (seeks : List Nat) (m : RepManagerState), mgrRun src seeks = some m →
    MgrInv m ∧ m.src = src ∧ m.rounds = totalTicksOf src := by
  suffices h : ∀ (seeks : List Nat) (m0 : RepManagerState),
      MgrInv m0 → m0.src = src → m0.rounds = totalTicksOf src →
      ∀ m, List.foldl mgrSeek (some m0) seeks = some m →
      MgrInv m ∧ m.src = src ∧ m.rounds = totalTicksOf src by
    intro seeks m hm
    rw [mgrRun] at hm
    rcases hinit : RepManager.init src with _ | m0
    · rw [hinit, mgrSeek_none] at hm
      exact absurd hm (by simp)
    · rw [hinit] at hm
      obtain ⟨hi1, hi2, hi3, -⟩ := init_inv src h0 m0 hinit
      exact h seeks m0 hi1 hi2 hi3 m hm
  intro seeks
  induction seeks with
  | nil =>
      intro m0 h1 h2 h3 m hm
      simp only [List.foldl_nil, Option.some.injEq] at hm
      subst hm
      exact ⟨h1, h2, h3⟩
  | cons T rest ih =>
      intro m0 h1 h2 h3 m hm
      rw [List.foldl_cons] at hm
      rcases hstep : RepManager.set_round m0 T with _ | m1
      · rw [show mgrSeek (some m0) T = RepManager.set_round m0 T from rfl, hstep,
          mgrSeek_none] at hm
        exact absurd hm (by simp)
      · rw [show mgrSeek (some m0) T = RepManager.set_round m0 T from rfl, hstep] at hm
        obtain ⟨hInv1, -, hsrc1, hrounds1⟩ := mgr_step m0 T m1 (by rw [h2]; exact h0) h1 hstep
        exact ih m1 hInv1 (by rw [hsrc1, h2]) (by rw [hrounds1, h3]) m hm

theorem retiredStore_old_mem (m : RepManagerState) (_hInv : MgrInv m) :
    ∀ kp ∈ retiredStore m, kp.1 ∈ storeKeys m.games → kp ∈ m.games := by
  rw [retiredStore]
  by_cases hk : hasKey (retireActive m).lastTick m.games
  · rw [if_pos hk]
    exact fun kp h _ => h
  · rw [if_neg hk]
    have hne := hasKey_false _ _ (by simpa using hk)
    intro kp hkp hkey
    rcases (mem_storeInsert _ _ _ kp).mp hkp with he | he
    · exfalso
      obtain ⟨kq, hkq, hkqe⟩ := List.mem_map.mp hkey
      exact hne kq hkq (by rw [hkqe, he])
    · exact he

/-- A manager seek never silently replaces a stored checkpoint: an entry
present under some key both before and after the seek is the same player. -/
theorem mgr_step_games (m : RepManagerState) (T : Nat) (m' : RepManagerState)
    (hInv : MgrInv m) (hstep : RepManager.set_round m T = some m') :
    ∀ k p p', (k, p) ∈ m.games → (k, p') ∈ m'.games → p' = p := by
  have hknd : (storeKeys m.games).Nodup := sorted_keys_nodup _ hInv.keys_sorted
  have hmain : ∀ k p p', (k, p) ∈ m.games → (k, p') ∈ retiredStore m → p' = p := by
    intro k p p' hold hnew
    have hmem : (k, p') ∈ m.games :=
      retiredStore_old_mem m hInv (k, p') hnew (List.mem_map.mpr ⟨(k, p), hold, rfl⟩)
    exact assoc_unique m.games hknd k p' p hmem hold
  intro k p p' hold hnew
  rw [RepManager.set_round] at hstep
  by_cases hf : m.active.lastTick < T
  · rw [if_pos hf] at hstep
    simp only [Option.some.injEq] at hstep
    subst hstep
    exact assoc_unique m.games hknd k p' p hnew hold
  · rw [if_neg hf] at hstep
    rcases hfind : storeFindLE T (retiredStore m) with _ | ⟨k0, p0⟩ <;> rw [hfind] at hstep
    · by_cases hT0 : 0 < T
      · rw [if_pos hT0] at hstep
        simp only [Option.some.injEq] at hstep
        subst hstep
        exact hmain k p p' hold hnew
      · rw [if_neg hT0] at hstep
        rcases hq : (freshLoaded m.src m.nextId).queue with _ | ⟨⟨t0, a0⟩, rest⟩ <;>
          rw [hq] at hstep
        · exact absurd hstep (by simp)
        · simp only [Option.some.injEq] at hstep
          subst hstep
          exact hmain k p p' hold hnew
    · simp only [Option.some.injEq] at hstep
      subst hstep
      exact hmain k p p' hold ((storeErase_sublist k0 (retiredStore m)).subset hnew)

/-- C1: for every sequence of manager-level seeks ending in a seek to tick
`T` with `T ≤ totalTicks` — on a source whose first record carries the
tick-0 session-initialization timestamp — the active player's `lastTick`
equals `min T totalTicks`, and no action whose timestamp exceeds that
`lastTick` has ever been applied to the active player's logic engine. -/
theorem C1_manager_seek (src : Source) (h0 : firstTs src = some 0)
    (seeks : List Nat) (T : Nat) (m : RepManagerState)
    (hrun : mgrRun src (seeks ++ [T]) = some m)
    (hT : T ≤ totalTicksOf src) :
    m.active.lastTick = min T (totalTicksOf src) ∧
    ∀ p ∈ appliedList m.active.trace, p.1 ≤ m.active.lastTick := by
  rw [mgrRun, List.foldl_append, List.foldl_cons, List.foldl_nil] at hrun
  rcases hpre : List.foldl mgrSeek (RepManager.init src) seeks with _ | m1
  · rw [hpre, show mgrSeek none T = none from rfl] at hrun
    exact absurd hrun (by simp)
  · rw [hpre] at hrun
    have hrun' : RepManager.set_round m1 T = some m := hrun
    obtain ⟨hInv1, hsrc1, -⟩ := mgrRun_inv src h0 seeks m1 (by rw [mgrRun]; exact hpre)
    obtain ⟨hInv, hlt, -, -⟩ := mgr_step m1 T m (by rw [hsrc1]; exact h0) hInv1 hrun'
    refine ⟨?_, hInv.active_trace⟩
    rw [hlt, Nat.min_eq_left hT]

theorem C1_witness :
    c1m.active.lastTick = min 5 (totalTicksOf sampleSrc) ∧
    ∀ p ∈ appliedList c1m.active.trace, p.1 ≤ c1m.active.lastTick :=
  C1_manager_seek sampleSrc (by decide) [8, 3] 5 c1m rfl (by decide)

/-- C6: checkpoint-store invariant across any reachable manager seek: store
entries are keyed by the stored player's `lastTick`; an existing checkpoint
is never silently overwritten (an entry surviving the seek under the same
key is the same player); stored player instances are pairwise distinct; and
the active player is never simultaneously in the store (recalling removes
it before it becomes active). -/
theorem C6_store_invariant (src : Source) (h0 : firstTs src = some 0)
    (seeks : List Nat) (T : Nat) (m m' : RepManagerState)
    (hrun : mgrRun src seeks = some m)
    (hstep : RepManager.set_round m T = some m') :
    (∀ kp ∈ m'.games, (kp : Nat × RepGameState).2.lastTick = kp.1) ∧
    (∀ k p p', (k, p) ∈ m.games → (k, p') ∈ m'.games → p' = p) ∧
    (storePids m'.games).Nodup ∧
    m'.active.pid ∉ storePids m'.games := by
  obtain ⟨hInv1, hsrc1, -⟩ := mgrRun_inv src h0 seeks m hrun
  obtain ⟨hInv', -, -, -⟩ := mgr_step m T m' (by rw [hsrc1]; exact h0) hInv1 hstep
  exact ⟨hInv'.keys_eq, mgr_step_games m T m' hInv1 hstep, hInv'.pids_nodup,
    hInv'.active_notin⟩

theorem C6_witness :
    (∀ kp ∈ c6m'.games, (kp : Nat × RepGameState).2.lastTick = kp.1) ∧
    (∀ k p p', (k, p) ∈ c6m.games → (k, p') ∈ c6m'.games → p' = p) ∧
    (storePids c6m'.games).Nodup ∧
    c6m'.active.pid ∉ storePids c6m'.games :=
  C6_store_invariant sampleSrc (by decide) [8, 3] 2 c6m c6m' rfl rfl

/-- C2: a manager seek to `T` at or before the active player's `lastTick`
first retires the active player (rendezvous drain, conditional store), then
selects among the stored checkpoints: if every stored key exceeds `T`, a
brand-new player (fresh identity, freshly loaded queue) becomes active —
seeked to `T` when `T > 0`, and when `T = 0` only the very first queued
action is applied; if some stored key is at most `T`, the entry with the
greatest such key is removed from the store and adopted, running the
player-level seek exactly when its `lastTick < T`. -/
theorem C2_checkpoint_selection (src : Source) (h0 : firstTs src = some 0)
    (seeks : List Nat) (T : Nat) (m m' : RepManagerState)
    (hrun : mgrRun src seeks = some m)
    (hstep : RepManager.set_round m T = some m')
    (hT : T ≤ m.active.lastTick) :
    ((∀ kp ∈ retiredStore m, T < kp.1) →
       m'.active.pid = m.nextId ∧ m'.games = retiredStore m ∧
       (0 < T → m'.active = (RepGame.set_round (freshLoaded m.src m.nextId) T).1 ∧
         m'.active.lastTick = T) ∧
       (T = 0 → ∃ t a rest, (_load_queue m.src []).queue = (t, a) :: rest ∧
         m'.active.queue = rest ∧ m'.active.trace = [Ev.apply t a] ∧
         m'.active.lastTick = 0)) ∧
    (∀ k p, (k, p) ∈ retiredStore m → k ≤ T →
       (∀ kp ∈ retiredStore m, kp.1 ≤ T → kp.1 ≤ k) →
       m'.games = storeErase k (retiredStore m) ∧
       p.pid ∉ storePids m'.games ∧
       (p.lastTick < T → m'.active = (RepGame.set_round p T).1 ∧ m'.active.lastTick = T) ∧
       (T ≤ p.lastTick → m'.active = p ∧ m'.active.lastTick = T)) := by
  obtain ⟨hInv, hsrc1, -⟩ := mgrRun_inv src h0 seeks m hrun
  obtain ⟨hg1, hg2, hg3, hg4, hg5, hg6⟩ := retiredStore_facts m hInv
  rw [RepManager.set_round, if_neg (Nat.not_lt.mpr hT)] at hstep
  constructor
  · intro hnone
    have hfind : storeFindLE T (retiredStore m) = none := by
      rcases hf : storeFindLE T (retiredStore m) with _ | ⟨k, p⟩
      · rfl
      · obtain ⟨hmem, hle⟩ := storeFindLE_mem _ _ _ hf
        exact absurd hle (Nat.not_le.mpr (hnone (k, p) hmem))
    rw [hfind] at hstep
    by_cases hT0 : 0 < T
    · rw [if_pos hT0] at hstep
      simp only [Option.some.injEq] at hstep
      subst hstep
      refine ⟨?_, rfl, fun _ => ⟨rfl, (set_round_spec _ _ hT0).1⟩,
        fun h => absurd hT0 (by omega)⟩
      show (RepGame.set_round (freshLoaded m.src m.nextId) T).1.pid = m.nextId
      rw [set_round_pid]
      rfl
    · rw [if_neg hT0] at hstep
      rcases hq : (freshLoaded m.src m.nextId).queue with _ | ⟨⟨t0, a0⟩, rest⟩ <;>
        rw [hq] at hstep
      · exact absurd hstep (by simp)
      · simp only [Option.some.injEq] at hstep
        subst hstep
        refine ⟨rfl, rfl, fun h => absurd h (by omega), fun _ => ⟨t0, a0, rest, hq, rfl, ?_, rfl⟩⟩
        show (freshLoaded m.src m.nextId).trace ++ [Ev.apply t0 a0] = [Ev.apply t0 a0]
        rfl
  · intro k p hmem hkle hmax
    rcases hf : storeFindLE T (retiredStore m) with _ | ⟨k0, p0⟩
    · exact absurd hkle (Nat.not_le.mpr (storeFindLE_none _ _ hf (k, p) hmem))
    · obtain ⟨hmem0, hle0⟩ := storeFindLE_mem _ _ _ hf
      have hmax0 := storeFindLE_greatest _ _ hg2 _ hf
      have hkeq : k = k0 := Nat.le_antisymm (hmax0 (k, p) hmem hkle) (hmax (k0, p0) hmem0 hle0)
      have hpe : (k, p) = (k0, p0) :=
        assoc_unique_pair _ (sorted_keys_nodup _ hg2) (k, p) (k0, p0) hmem hmem0 hkeq
      rw [← hpe] at hf
      rw [hf] at hstep
      simp only [Option.some.injEq] at hstep
      subst hstep
      have hpk : p.lastTick = k := hg1 (k, p) hmem
      have huniq : ∀ kp ∈ retiredStore m, kp.1 = k → kp = (k, p) := fun kp hkp hke =>
        assoc_unique_pair _ (sorted_keys_nodup _ hg2) kp (k, p) hkp hmem hke
      by_cases hpl : p.lastTick < T
      · rw [if_pos hpl]
        exact ⟨rfl, erase_pid_notin k p _ hg3 huniq hmem,
          fun _ => ⟨rfl, (set_round_spec _ _ hpl).1⟩, fun hc => absurd hpl (by omega)⟩
      · rw [if_neg hpl]
        have hpT : p.lastTick = T := by omega
        exact ⟨rfl, erase_pid_notin k p _ hg3 huniq hmem,
          fun hc => absurd hc hpl, fun _ => ⟨rfl, hpT⟩⟩

theorem C2_witness :
    c2m'.games = storeErase 9 (retiredStore c2m) ∧
    c2p.pid ∉ storePids c2m'.games ∧
    (c2p.lastTick < 10 →
      c2m'.active = (RepGame.set_round c2p 10).1 ∧ c2m'.active.lastTick = 10) ∧
    (10 ≤ c2p.lastTick → c2m'.active = c2p ∧ c2m'.active.lastTick = 10) :=
  (C2_checkpoint_selection sampleSrc (by decide) [8, 3, 15] 10 c2m c2m' rfl
    rfl (by decide)).2 9 c2p (List.mem_cons_self _ _) (by decide) (by decide)

theorem catchUpAux_spec (timer : Timer) :
    ∀ (k lt : Nat) (nows : List ℚ) (tr : List Ev),
    lt ≤ (catchUpAux timer k lt nows tr).1 ∧
    tickCount (catchUpAux timer k lt nows tr).2.2 =
      tickCount tr + ((catchUpAux timer k lt nows tr).1 - lt) := by
  intro k
  induction k with
  | zero =>
      intro lt nows tr
      exact ⟨le_refl _, by simp [catchUpAux]⟩
  | succ n ih =>
      intro lt nows tr
      rw [catchUpAux]
      by_cases hc : (lt : Int) < logicTime (timer.currentTime (nows.headD 0))
      · rw [if_pos hc]
        obtain ⟨h1, h2⟩ := ih (lt + 1) nows.tail (tr ++ [Ev.tick])
        refine ⟨by omega, ?_⟩
        rw [h2, tickCount_append]
        have ht : tickCount [Ev.tick] = 1 := rfl
        rw [ht]
        omega
      · rw [if_neg hc]
        refine ⟨le_refl _, ?_⟩
        show tickCount tr = tickCount tr + (lt - lt)
        omega

theorem applyPhase_spec (s : RepGameState) (nts : Nat) (nact : Action) :
    s.lastTick ≤ (applyPhase s nts nact).lastTick ∧
    tickCount (applyPhase s nts nact).trace =
      tickCount s.trace + ((applyPhase s nts nact).lastTick - s.lastTick) := by
  rw [applyPhase, advanceTicks_eq]
  dsimp only
  constructor
  · omega
  · rw [tickCount_append, tickCount_append, tickCount_replicate_tick]
    have h0 : tickCount [Ev.apply nts nact] = 0 := rfl
    rw [h0]
    omega

theorem dispatchPhase_spec (s : RepGameState) (nows : List ℚ) (nts : Nat) (nact : Action) :
    s.lastTick ≤ (dispatchPhase s nows nts nact).state.lastTick ∧
    tickCount (dispatchPhase s nows nts nact).state.trace =
      tickCount s.trace + ((dispatchPhase s nows nts nact).state.lastTick - s.lastTick) := by
  rw [dispatchPhase]
  by_cases h1 : (nts : Int) < logicTime (s.timer.currentTime (nows.headD 0))
  · rw [if_pos h1]
    exact applyPhase_spec _ nts nact
  · rw [if_neg h1]
    by_cases h2 : (nts : Int) > logicTime (s.timer.currentTime (nows.tail.headD 0))
    · rw [if_pos h2]
      refine ⟨le_refl _, ?_⟩
      show tickCount s.trace = tickCount s.trace + (s.lastTick - s.lastTick)
      omega
    · rw [if_neg h2]
      exact applyPhase_spec s nts nact

theorem mainloopDispatch_spec (s : RepGameState) (bt : Nat) (ba : Action) (env : MainEnv) :
    ∀ q : Option Sig,
    s.lastTick ≤ (mainloopDispatch s bt ba env q).state.lastTick ∧
    tickCount (mainloopDispatch s bt ba env q).state.trace =
      tickCount s.trace + ((mainloopDispatch s bt ba env q).state.lastTick - s.lastTick) := by
  intro q
  match q with
  | some Sig.stop =>
      exact ⟨set_round_mono s (s.lastTick + 1), set_round_tickCount s (s.lastTick + 1)⟩
  | some Sig.togglePause =>
      refine ⟨le_refl _, ?_⟩
      show tickCount s.trace = tickCount s.trace + (s.lastTick - s.lastTick)
      omega
  | some Sig.rendezvous =>
      exact ⟨set_round_mono s (s.lastTick + 1), set_round_tickCount s (s.lastTick + 1)⟩
  | some (Sig.inject act) => exact dispatchPhase_spec s env.nows.tail s.lastTick act
  | none =>
      rw [mainloopDispatch]
      by_cases hdue : (bt : Int) ≤ logicTime (s.timer.currentTime (env.nows.tail.headD 0))
      · rw [if_pos hdue]
        exact dispatchPhase_spec { s with buffer := none } env.nows.tail.tail bt ba
      · rw [if_neg hdue]
        rw [catchUp]
        exact catchUpAux_spec s.timer (bt - s.lastTick) s.lastTick env.nows.tail.tail s.trace

theorem mainloopCore_spec (s : RepGameState) (bt : Nat) (ba : Action) (env : MainEnv) :
    s.lastTick ≤ (mainloopCore s bt ba env).state.lastTick ∧
    tickCount (mainloopCore s bt ba env).state.trace =
      tickCount s.trace + ((mainloopCore s bt ba env).state.lastTick - s.lastTick) :=
  mainloopDispatch_spec s bt ba env _

theorem mainloopStep_spec (s : RepGameState) (env : MainEnv) :
    s.lastTick ≤ (mainloopStep s env).state.lastTick ∧
    tickCount (mainloopStep s env).state.trace =
      tickCount s.trace + ((mainloopStep s env).state.lastTick - s.lastTick) := by
  obtain ⟨lt, tm, buf, q, tr, pid⟩ := s
  match buf, q with
  | none, [] =>
      refine ⟨le_refl _, ?_⟩
      show tickCount tr = tickCount tr + (lt - lt)
      omega
  | none, b :: rest =>
      exact mainloopCore_spec
        { lastTick := lt, timer := tm, buffer := some b, queue := rest, trace := tr, pid := pid }
        b.1 b.2 env
  | some bv, [] =>
      exact mainloopCore_spec
        { lastTick := lt, timer := tm, buffer := some bv, queue := [], trace := tr, pid := pid }
        bv.1 bv.2 env
  | some bv, b :: rest =>
      exact mainloopCore_spec
        { lastTick := lt, timer := tm, buffer := some bv, queue := b :: rest, trace := tr,
          pid := pid }
        bv.1 bv.2 env

theorem mainloopRun_spec (envs : List MainEnv) :
    ∀ s : RepGameState,
    s.lastTick ≤ (mainloopRun s envs).lastTick ∧
    tickCount (mainloopRun s envs).trace =
      tickCount s.trace + ((mainloopRun s envs).lastTick - s.lastTick) := by
  induction envs with
  | nil =>
      intro s
      refine ⟨le_refl _, ?_⟩
      show tickCount s.trace = tickCount s.trace + (s.lastTick - s.lastTick)
      omega
  | cons e es ih =>
      intro s
      rw [mainloopRun]
      obtain ⟨h1, h2⟩ := mainloopStep_spec s e
      rcases hres : mainloopStep s e with s' | s' | s'
      all_goals rw [hres] at h1 h2
      all_goals simp only [StepRes.state] at h1 h2
      all_goals dsimp only
      · exact ⟨h1, h2⟩
      · exact ⟨h1, h2⟩
      · obtain ⟨g1, g2⟩ := ih s'
        refine ⟨le_trans h1 g1, ?_⟩
        rw [g2, h2]
        omega

/-- C7: the player invariant holds across every operation: one `set_round`,
one `mainloop` iteration, and any finite `mainloop` run never decrease
`lastTick`, and each extends the logic-engine trace with exactly one
`nextTick()` event per unit increment of `lastTick` — the engine is advanced
one tick per increment, never more, and ticks are never skipped. -/
theorem C7_tick_pairing :
    (∀ (s : RepGameState) (timestamp : Nat),
      s.lastTick ≤ (RepGame.set_round s timestamp).1.lastTick ∧
      tickCount (RepGame.set_round s timestamp).1.trace =
        tickCount s.trace + ((RepGame.set_round s timestamp).1.lastTick - s.lastTick)) ∧
    (∀ (s : RepGameState) (env : MainEnv),
      s.lastTick ≤ (mainloopStep s env).state.lastTick ∧
      tickCount (mainloopStep s env).state.trace =
        tickCount s.trace + ((mainloopStep s env).state.lastTick - s.lastTick)) ∧
    (∀ (s : RepGameState) (envs : List MainEnv),
      s.lastTick ≤ (mainloopRun s envs).lastTick ∧
      tickCount (mainloopRun s envs).trace =
        tickCount s.trace + ((mainloopRun s envs).lastTick - s.lastTick)) :=
  ⟨fun s timestamp => ⟨set_round_mono s timestamp, set_round_tickCount s timestamp⟩,
   mainloopStep_spec,
   fun s envs => mainloopRun_spec envs s⟩

end Logger
